import Mathlib

/-!
Verification of the backtest simulation engine of `backtester.py`.

The engine is embedded shallowly: prices, capital and P&L are modelled as
exact rationals (`ℚ`), bar timestamps as rationals counting seconds, the
pandas NaN-able `atr` column as `Option ℚ`, and the Python `float('inf')`
sentinel used by `profit_factor` as a dedicated inductive value.  The
per-bar loop of `_execute_backtest` becomes a fold of a step function over
the index range `[1, n)`; the run state carries, besides the fields the
Python code keeps (`capital`, `current_position`, and the `results` lists),
two trace fields (`intervals`, `closes`) that record, for specification
purposes only, the half-open life interval of each closed position and the
capital before/after each close together with the closed trade's pnl.
-/

/-- Trading direction; the Python code stores the strings
`'long'`/`'short'`. -/
inductive Direction where
  | long
  | short
deriving DecidableEq, Repr, Inhabited

/-- Exit reason of a closed trade; the Python code stores the strings
`'stop_loss'`/`'take_profit'`/`'signal'`. -/
inductive ExitReason where
  | stop_loss
  | take_profit
  | signal
deriving DecidableEq, Repr, Inhabited

/-- A Python float that is either an ordinary value or `float('inf')`
(used only for `profit_factor`). -/
inductive FloatVal where
  | val (q : ℚ)
  | inf
deriving DecidableEq, Repr, Inhabited

/-- One OHLCV bar of the analysed dataframe.  `timestamp` counts seconds
(`bar.name` in pandas); `atr` is `none` when `pd.isna(bar['atr'])`. -/
structure Bar where
  timestamp : ℚ
  open_ : ℚ
  high : ℚ
  low : ℚ
  close : ℚ
  volume : ℚ
  atr : Option ℚ
deriving DecidableEq, Repr, Inhabited

/-- A position dictionary as built by `_open_position`. -/
structure Position where
  id : ℕ
  symbol : String
  timeframe : String
  direction : Direction
  entry_time : ℚ
  entry_price : ℚ
  quantity : ℚ
  stop_loss : ℚ
  take_profit : ℚ
  entry_index : ℕ
  status : String
deriving DecidableEq, Repr, Inhabited

/-- A trade dictionary as built by `_close_position`. -/
structure Trade where
  position_id : ℕ
  symbol : String
  timeframe : String
  direction : Direction
  entry_time : ℚ
  exit_time : ℚ
  entry_price : ℚ
  exit_price : ℚ
  quantity : ℚ
  entry_value : ℚ
  exit_value : ℚ
  pnl : ℚ
  pnl_pct : ℚ
  exit_reason : ExitReason
  duration : ℚ
  stop_loss : ℚ
  take_profit : ℚ
deriving DecidableEq, Repr, Inhabited

/-- One entry of `results['equity_curve']`. -/
structure EquityPoint where
  timestamp : ℚ
  equity : ℚ
  capital : ℚ
  unrealized_pnl : ℚ
deriving DecidableEq, Repr, Inhabited

/-- `CryptoBacktester._open_position`.  `selfPositions` is the instance
attribute `self.positions` read for the `id` field (`len(self.positions) + 1`);
nothing in the engine ever appends to it, `reset` sets it to `[]`. -/
def open_position (selfPositions : List Position) (signal : ℤ) (bar : Bar)
    (index : ℕ) (capital : ℚ) (symbol timeframe : String) : Position :=
  let direction := if signal = 1 then Direction.long else Direction.short
  let entry_price := bar.close
  let position_value := capital * (1 / 10)
  let quantity := position_value / entry_price
  let atr := match bar.atr with
    | some a => a
    | none => entry_price * (2 / 100)
  let stop_loss :=
    if direction = Direction.long then entry_price - atr * 2 else entry_price + atr * 2
  let take_profit :=
    if direction = Direction.long then entry_price + atr * 4 else entry_price - atr * 4
  { id := selfPositions.length + 1
    symbol := symbol
    timeframe := timeframe
    direction := direction
    entry_time := bar.timestamp
    entry_price := entry_price
    quantity := quantity
    stop_loss := stop_loss
    take_profit := take_profit
    entry_index := index
    status := "open" }

/-- `CryptoBacktester._close_position`.  The `index` argument is received
but, as in the source, not used in the produced record. -/
def close_position (position : Position) (bar : Bar) (_index : ℕ) : Trade :=
  let exit_price := bar.close
  let exit_time := bar.timestamp
  let pnl :=
    if position.direction = Direction.long then
      (exit_price - position.entry_price) * position.quantity
    else
      (position.entry_price - exit_price) * position.quantity
  let entry_value := position.entry_price * position.quantity
  let exit_value := exit_price * position.quantity
  let exit_reason :=
    if exit_price ≤ position.stop_loss ∧ position.direction = Direction.long then
      ExitReason.stop_loss
    else if position.stop_loss ≤ exit_price ∧ position.direction = Direction.short then
      ExitReason.stop_loss
    else if position.take_profit ≤ exit_price ∧ position.direction = Direction.long then
      ExitReason.take_profit
    else if exit_price ≤ position.take_profit ∧ position.direction = Direction.short then
      ExitReason.take_profit
    else ExitReason.signal
  { position_id := position.id
    symbol := position.symbol
    timeframe := position.timeframe
    direction := position.direction
    entry_time := position.entry_time
    exit_time := exit_time
    entry_price := position.entry_price
    exit_price := exit_price
    quantity := position.quantity
    entry_value := entry_value
    exit_value := exit_value
    pnl := pnl
    pnl_pct := pnl / entry_value * 100
    exit_reason := exit_reason
    duration := (exit_time - position.entry_time) / 3600
    stop_loss := position.stop_loss
    take_profit := position.take_profit }

/-- `CryptoBacktester._check_stop_loss`. -/
def check_stop_loss (position : Position) (bar : Bar) : Bool :=
  if position.direction = Direction.long then
    decide (bar.low ≤ position.stop_loss)
  else
    decide (position.stop_loss ≤ bar.high)

/-- `CryptoBacktester._calculate_unrealized_pnl`. -/
def calculate_unrealized_pnl (position : Position) (bar : Bar) : ℚ :=
  let current_price := bar.close
  if position.direction = Direction.long then
    (current_price - position.entry_price) * position.quantity
  else
    (position.entry_price - current_price) * position.quantity

/-- The mutable locals of `_execute_backtest` together with the `results`
lists.  `intervals` and `closes` are trace fields added for specification:
`intervals` records `(position.entry_index, i)` for each close performed at
bar index `i`, and `closes` records `(capital before, trade.pnl, capital
after)` for each close. -/
structure RunState where
  capital : ℚ
  currentPosition : Option Position
  trades : List Trade
  positions : List Position
  equityCurve : List EquityPoint
  intervals : List (ℕ × ℕ)
  closes : List (ℚ × ℚ × ℚ)
deriving DecidableEq, Repr, Inhabited

/-- Exit phase of the loop body (`# Check for exit signals if we have a
position`): close the open position when the exit trigger is nonzero or
the stop is breached, applying the realized pnl to capital. -/
def exit_phase (exitSignals : ℕ → ℤ) (bar : Bar) (i : ℕ)
    (s : RunState) : RunState :=
  match s.currentPosition with
  | some pos =>
      if exitSignals i ≠ 0 ∨ check_stop_loss pos bar = true then
        let tr := close_position pos bar i
        let capital' :=
          if 0 < tr.pnl then s.capital + tr.pnl else s.capital - |tr.pnl|
        { s with
            capital := capital'
            currentPosition := none
            trades := s.trades ++ [tr]
            intervals := s.intervals ++ [(pos.entry_index, i)]
            closes := s.closes ++ [(s.capital, tr.pnl, capital')] }
      else s
  | none => s

/-- Entry phase of the loop body (`# Check for entry signals if we don't
have a position`). -/
def entry_phase (symbol timeframe : String) (selfPositions : List Position)
    (entrySignals : ℕ → ℤ) (bar : Bar) (i : ℕ) (s : RunState) : RunState :=
  match s.currentPosition with
  | none =>
      if entrySignals i ≠ 0 then
        let pos := open_position selfPositions (entrySignals i) bar i
          s.capital symbol timeframe
        { s with
            currentPosition := some pos
            positions := s.positions ++ [pos] }
      else s
  | some _ => s

/-- Equity-curve snapshot of the loop body (`# Update equity curve`). -/
def equity_phase (bar : Bar) (s : RunState) : RunState :=
  let ep : EquityPoint :=
    match s.currentPosition with
    | some pos =>
        let unrealized := calculate_unrealized_pnl pos bar
        { timestamp := bar.timestamp
          equity := s.capital + unrealized
          capital := s.capital
          unrealized_pnl := unrealized }
    | none =>
        { timestamp := bar.timestamp
          equity := s.capital
          capital := s.capital
          unrealized_pnl := 0 }
  { s with equityCurve := s.equityCurve ++ [ep] }

/-- The body of the `for i in range(1, len(df))` loop of
`_execute_backtest`: exit phase, entry phase, then the equity-curve
snapshot, in that order. -/
def stepBar (symbol timeframe : String) (selfPositions : List Position)
    (entrySignals exitSignals : ℕ → ℤ) (bar : Bar) (i : ℕ)
    (s : RunState) : RunState :=
  equity_phase bar
    (entry_phase symbol timeframe selfPositions entrySignals bar i
      (exit_phase exitSignals bar i s))

/-- Initial run state: `capital = self.initial_capital`,
`current_position = None`, all result lists empty. -/
def initState (initial_capital : ℚ) : RunState :=
  { capital := initial_capital
    currentPosition := none
    trades := []
    positions := []
    equityCurve := []
    intervals := []
    closes := [] }

/-- The bar loop of `_execute_backtest`: fold of `stepBar` over the index
range `1, …, len(df) - 1`. -/
def execute_loop (symbol timeframe : String) (selfPositions : List Position)
    (initial_capital : ℚ) (bars : List Bar)
    (entrySignals exitSignals : ℕ → ℤ) : RunState :=
  (List.range' 1 (bars.length - 1)).foldl
    (fun s i =>
      stepBar symbol timeframe selfPositions entrySignals exitSignals
        (bars.getD i default) i s)
    (initState initial_capital)

/-- The terminal step after the loop (`# Close any remaining position at
the end`): force-close a still-open position at the final bar.  Note that
it appends the trade without touching `capital`, exactly as the source
does. -/
def terminal_close (bars : List Bar) (s : RunState) : RunState :=
  match s.currentPosition, bars.getLast? with
  | some pos, some last_bar =>
      let tr := close_position pos last_bar (bars.length - 1)
      { s with
          currentPosition := none
          trades := s.trades ++ [tr]
          intervals := s.intervals ++ [(pos.entry_index, bars.length - 1)]
          closes := s.closes ++ [(s.capital, tr.pnl, s.capital)] }
  | _, _ => s

/-- `CryptoBacktester._execute_backtest`: the bar loop followed by the
terminal step. -/
def execute_backtest (symbol timeframe : String)
    (selfPositions : List Position) (initial_capital : ℚ) (bars : List Bar)
    (entrySignals exitSignals : ℕ → ℤ) : RunState :=
  terminal_close bars
    (execute_loop symbol timeframe selfPositions initial_capital
      bars entrySignals exitSignals)

/-- Sum of the pnl of the winning trades:
`trades_df[trades_df['pnl'] > 0]['pnl'].sum()`. -/
def gross_profit_of (trades : List Trade) : ℚ :=
  ((trades.filter (fun t => decide (0 < t.pnl))).map Trade.pnl).sum

/-- Absolute sum of the pnl of the losing trades:
`abs(trades_df[trades_df['pnl'] < 0]['pnl'].sum())`. -/
def gross_loss_of (trades : List Trade) : ℚ :=
  |((trades.filter (fun t => decide (t.pnl < 0))).map Trade.pnl).sum|

/-- Prefix maxima of a list starting from accumulator `m`. -/
def runningPeaksAux (m : ℚ) : List ℚ → List ℚ
  | [] => []
  | e :: rest => (max m e) :: runningPeaksAux (max m e) rest

/-- `equity_series.expanding().max()`: at index `i` the maximum of the
first `i + 1` entries. -/
def runningPeaks : List ℚ → List ℚ
  | [] => []
  | e :: rest => e :: runningPeaksAux e rest

/-- `series.min()` of a nonempty list (0 for the empty list, which the
callers never pass). -/
def listMin : List ℚ → ℚ
  | [] => 0
  | x :: xs => xs.foldl min x

/-- `CryptoBacktester._calculate_max_drawdown`. -/
def calculate_max_drawdown (equity_series : List ℚ) : ℚ :=
  if equity_series.isEmpty then 0
  else
    let drawdowns := (equity_series.zip (runningPeaks equity_series)).map
      (fun p => (p.1 - p.2) / p.2 * 100)
    |listMin drawdowns|

/-- The metrics dictionary returned by
`_calculate_performance_metrics` (the Sharpe ratio, whose annualisation
involves an irrational square root and which no claim concerns, is not
modelled). -/
structure PerformanceMetrics where
  total_trades : ℕ
  winning_trades : ℕ
  losing_trades : ℕ
  win_rate : ℚ
  total_pnl : ℚ
  gross_profit : ℚ
  gross_loss : ℚ
  profit_factor : FloatVal
  avg_win : ℚ
  avg_loss : ℚ
  max_drawdown : ℚ
  total_return : ℚ
  duration_hours : ℚ
  hourly_return : ℚ
  initial_capital : ℚ
  final_capital : ℚ
deriving DecidableEq, Repr, Inhabited

/-- `CryptoBacktester._calculate_performance_metrics`; returns `none` for
the empty dictionary produced when the ledger is empty.
`initial_capital` is the instance attribute `self.initial_capital`. -/
def calculate_performance_metrics (initial_capital : ℚ)
    (trades : List Trade) (equity_curve : List EquityPoint) :
    Option PerformanceMetrics :=
  if trades.isEmpty then none
  else
    let total_trades := trades.length
    let winning_trades := (trades.filter (fun t => decide (0 < t.pnl))).length
    let losing_trades := (trades.filter (fun t => decide (t.pnl < 0))).length
    let win_rate :=
      if 0 < total_trades then (winning_trades : ℚ) / (total_trades : ℚ) * 100 else 0
    let total_pnl := (trades.map Trade.pnl).sum
    let gross_profit := gross_profit_of trades
    let gross_loss := gross_loss_of trades
    let profit_factor :=
      if 0 < gross_loss then FloatVal.val (gross_profit / gross_loss)
      else FloatVal.inf
    let avg_win :=
      if 0 < winning_trades then
        ((trades.filter (fun t => decide (0 < t.pnl))).map Trade.pnl).sum
          / (winning_trades : ℚ)
      else 0
    let avg_loss :=
      if 0 < losing_trades then
        ((trades.filter (fun t => decide (t.pnl < 0))).map Trade.pnl).sum
          / (losing_trades : ℚ)
      else 0
    let max_drawdown := calculate_max_drawdown (equity_curve.map EquityPoint.equity)
    let initial_equity := initial_capital
    let final_equity :=
      match equity_curve.getLast? with
      | some ep => ep.equity
      | none => initial_equity
    let total_return := (final_equity - initial_equity) / initial_equity * 100
    let duration_hours :=
      match equity_curve.head?, equity_curve.getLast? with
      | some first, some last => (last.timestamp - first.timestamp) / 3600
      | _, _ => 0
    let hourly_return := if 0 < duration_hours then total_return / duration_hours else 0
    some
      { total_trades := total_trades
        winning_trades := winning_trades
        losing_trades := losing_trades
        win_rate := win_rate
        total_pnl := total_pnl
        gross_profit := gross_profit
        gross_loss := gross_loss
        profit_factor := profit_factor
        avg_win := avg_win
        avg_loss := avg_loss
        max_drawdown := max_drawdown
        total_return := total_return
        duration_hours := duration_hours
        hourly_return := hourly_return
        initial_capital := initial_equity
        final_capital := final_equity }

/-- One single-run result entering portfolio aggregation: its tag and the
relevant parts of its `results`/`performance` dictionaries (`performance`
is `none` when the run produced the empty metrics dictionary). -/
structure RunResult where
  symbol : String
  timeframe : String
  trades : List Trade
  performance : Option PerformanceMetrics
deriving Repr, Inhabited

/-- The portfolio-level metrics dictionary. -/
structure PortfolioMetrics where
  total_trades : ℕ
  winning_trades : ℕ
  win_rate : ℚ
  total_pnl : ℚ
  total_return : ℚ
  initial_capital : ℚ
  final_capital : ℚ
deriving DecidableEq, Repr, Inhabited

/-- `perf.get('initial_capital', 0)`. -/
def perfInitialCapital (r : RunResult) : ℚ :=
  match r.performance with
  | some p => p.initial_capital
  | none => 0

/-- `perf.get('final_capital', 0)`. -/
def perfFinalCapital (r : RunResult) : ℚ :=
  match r.performance with
  | some p => p.final_capital
  | none => 0

/-- `CryptoBacktester._calculate_portfolio_performance`.  The nested
symbol/timeframe dictionaries are flattened to a list of run results in
iteration order; each pooled trade is tagged with its originating
`(symbol, timeframe)` as the code does via `portfolio_symbol` /
`portfolio_timeframe`. -/
def calculate_portfolio_performance (runs : List RunResult) :
    Option PortfolioMetrics :=
  let all_trades : List (String × String × Trade) :=
    runs.foldl (fun acc r => acc ++ r.trades.map (fun t => (r.symbol, r.timeframe, t))) []
  let total_initial_capital := runs.foldl (fun acc r => acc + perfInitialCapital r) 0
  let total_final_capital := runs.foldl (fun acc r => acc + perfFinalCapital r) 0
  if all_trades.isEmpty then none
  else
    let total_trades := all_trades.length
    let winning_trades :=
      (all_trades.filter (fun t => decide (0 < t.2.2.pnl))).length
    let win_rate :=
      if 0 < total_trades then (winning_trades : ℚ) / (total_trades : ℚ) * 100 else 0
    let total_pnl := (all_trades.map (fun t => t.2.2.pnl)).sum
    let total_return :=
      if 0 < total_initial_capital then
        (total_final_capital - total_initial_capital) / total_initial_capital * 100
      else 0
    some
      { total_trades := total_trades
        winning_trades := winning_trades
        win_rate := win_rate
        total_pnl := total_pnl
        total_return := total_return
        initial_capital := total_initial_capital
        final_capital := total_final_capital }

/-- Spec-side running peak ("running_peak = max equity seen so far"):
the maximum of the first `i + 1` equity values. -/
def spec_running_peak (es : List ℚ) (i : ℕ) : ℚ :=
  (es.take (i + 1)).foldl max (es.headD 0)

/-- Spec-side drawdown at time `i`:
`(equity − running_peak)/running_peak × 100`. -/
def spec_drawdown (es : List ℚ) (i : ℕ) : ℚ :=
  (es.getD i 0 - spec_running_peak es i) / spec_running_peak es i * 100

/-- Spec-side maximum drawdown, written from the spec's words:
`max_drawdown = |min over time of (equity − running_peak)/running_peak × 100|`. -/
def spec_max_drawdown (es : List ℚ) : ℚ :=
  |((List.range es.length).map (spec_drawdown es)).foldl min (spec_drawdown es 0)|

/-- A flat bar: all four prices equal, used for concrete test inputs. -/
def mkBar (ts price : ℚ) (a : Option ℚ) : Bar :=
  { timestamp := ts
    open_ := price
    high := price
    low := price
    close := price
    volume := 1
    atr := a }

/-- Concrete bars: price 100, 100, 110 on an hourly grid. -/
def barsRise : List Bar :=
  [mkBar 0 100 (some 1), mkBar 3600 100 (some 1), mkBar 7200 110 (some 1)]

/-- Concrete bars: flat price 100 over four hourly bars. -/
def barsFlat4 : List Bar :=
  [mkBar 0 100 (some 1), mkBar 3600 100 (some 1),
   mkBar 7200 100 (some 1), mkBar 10800 100 (some 1)]

/-- Entry trigger firing at bar 1 only. -/
def entryAt1 : ℕ → ℤ := fun i => if i = 1 then 1 else 0

/-- Entry trigger firing at bars 1 and 3. -/
def entryAt13 : ℕ → ℤ := fun i => if i = 1 ∨ i = 3 then 1 else 0

/-- Exit trigger that never fires. -/
def exitNever : ℕ → ℤ := fun _ => 0

/-- Trigger +1 at bar 2 only (usable as an entry or exit stream). -/
def sigPlusAt2 : ℕ → ℤ := fun i => if i = 2 then 1 else 0

/-- Trigger −1 at bar 2 only. -/
def sigMinusAt2 : ℕ → ℤ := fun i => if i = 2 then -1 else 0

/-- A concrete trade record with the given pnl, for metric tests. -/
def mkTrade (pnl : ℚ) : Trade :=
  { position_id := 1
    symbol := "BTC/USDT"
    timeframe := "1h"
    direction := Direction.long
    entry_time := 0
    exit_time := 3600
    entry_price := 100
    exit_price := 100 + pnl
    quantity := 1
    entry_value := 100
    exit_value := 100 + pnl
    pnl := pnl
    pnl_pct := pnl
    exit_reason := ExitReason.signal
    duration := 1
    stop_loss := 98
    take_profit := 104 }

/-- A concrete long position entered at bar 1 at a price of 100. -/
def posC4 : Position :=
  open_position [] 1 (mkBar 3600 100 (some 1)) 1 10000 "BTC/USDT" "1h"

/-- A concrete run state holding `posC4` open. -/
def stateWithOpenPos : RunState :=
  { capital := 10000
    currentPosition := some posC4
    trades := []
    positions := [posC4]
    equityCurve := []
    intervals := []
    closes := [] }

/-- Loop invariant after having processed bars up to index `i`: recorded
close intervals are well-formed (`fst ≤ snd ≤ i`) and chained in order;
an open position entered at or before `i`, after every recorded close;
and the entry indices of the recorded positions are exactly the interval
left ends plus, if open, the current position's entry. -/
def LoopInv (s : RunState) (i : ℕ) : Prop :=
  (∀ iv ∈ s.intervals, iv.1 ≤ iv.2 ∧ iv.2 ≤ i) ∧
  List.Pairwise (fun a b : ℕ × ℕ => a.2 ≤ b.1) s.intervals ∧
  (∀ p : Position, s.currentPosition = some p →
    p.entry_index ≤ i ∧ ∀ iv ∈ s.intervals, iv.2 ≤ p.entry_index) ∧
  s.positions.map Position.entry_index =
    s.intervals.map Prod.fst ++
      (match s.currentPosition with
       | some p => [p.entry_index]
       | none => [])

/-- Two concrete trades, one winner (pnl 10) and one loser (pnl −5). -/
def tradesMixed : List Trade := [mkTrade 10, mkTrade (-5)]

/-- One concrete winning trade and no losers. -/
def tradesNoLoss : List Trade := [mkTrade 10]

/-- A concrete metrics record carrying the given initial/final capital
(other fields defaulted; only the capitals enter portfolio sums). -/
def pmStub (ic fc : ℚ) : PerformanceMetrics :=
  { (default : PerformanceMetrics) with initial_capital := ic, final_capital := fc }

/-- Two concrete single-run results for portfolio aggregation. -/
def runsC9 : List RunResult :=
  [{ symbol := "BTC/USDT", timeframe := "1h", trades := tradesMixed,
     performance := some (pmStub 10000 10005) },
   { symbol := "ETH/USDT", timeframe := "4h", trades := tradesNoLoss,
     performance := some (pmStub 10000 10010) }]

theorem capital_update_eq (c p : ℚ) : (if 0 < p then c + p else c - |p|) = c + p := by
  split
  · rfl
  · rename_i h
    rw [abs_of_nonpos (le_of_not_lt h)]
    ring

theorem exit_phase_of_none {ex : ℕ → ℤ} {bar : Bar} {i : ℕ} {s : RunState}
    (h : s.currentPosition = none) : exit_phase ex bar i s = s := by
  unfold exit_phase
  rw [h]

theorem exit_phase_of_close {ex : ℕ → ℤ} {bar : Bar} {i : ℕ} {s : RunState}
    {pos : Position} (h : s.currentPosition = some pos)
    (hc : ex i ≠ 0 ∨ check_stop_loss pos bar = true) :
    exit_phase ex bar i s =
      { s with
          capital := s.capital + (close_position pos bar i).pnl
          currentPosition := none
          trades := s.trades ++ [close_position pos bar i]
          intervals := s.intervals ++ [(pos.entry_index, i)]
          closes := s.closes ++
            [(s.capital, (close_position pos bar i).pnl,
              s.capital + (close_position pos bar i).pnl)] } := by
  unfold exit_phase
  rw [h]
  simp only [if_pos hc, capital_update_eq]

theorem exit_phase_of_noclose {ex : ℕ → ℤ} {bar : Bar} {i : ℕ} {s : RunState}
    {pos : Position} (h : s.currentPosition = some pos)
    (hc : ¬(ex i ≠ 0 ∨ check_stop_loss pos bar = true)) :
    exit_phase ex bar i s = s := by
  unfold exit_phase
  rw [h]
  simp only [if_neg hc]

theorem entry_phase_of_some {sym tf : String} {sp : List Position}
    {en : ℕ → ℤ} {bar : Bar} {i : ℕ} {s : RunState} {pos : Position}
    (h : s.currentPosition = some pos) :
    entry_phase sym tf sp en bar i s = s := by
  unfold entry_phase
  rw [h]

theorem entry_phase_of_open {sym tf : String} {sp : List Position}
    {en : ℕ → ℤ} {bar : Bar} {i : ℕ} {s : RunState}
    (h : s.currentPosition = none) (he : en i ≠ 0) :
    entry_phase sym tf sp en bar i s =
      { s with
          currentPosition := some (open_position sp (en i) bar i s.capital sym tf)
          positions := s.positions ++ [open_position sp (en i) bar i s.capital sym tf] } := by
  unfold entry_phase
  rw [h]
  simp only [if_pos he]

theorem entry_phase_of_noentry {sym tf : String} {sp : List Position}
    {en : ℕ → ℤ} {bar : Bar} {i : ℕ} {s : RunState}
    (h : s.currentPosition = none) (he : ¬en i ≠ 0) :
    entry_phase sym tf sp en bar i s = s := by
  unfold entry_phase
  rw [h]
  simp only [if_neg he]

theorem equity_phase_capital (bar : Bar) (s : RunState) :
    (equity_phase bar s).capital = s.capital := rfl

theorem equity_phase_currentPosition (bar : Bar) (s : RunState) :
    (equity_phase bar s).currentPosition = s.currentPosition := rfl

theorem equity_phase_trades (bar : Bar) (s : RunState) :
    (equity_phase bar s).trades = s.trades := rfl

theorem equity_phase_positions (bar : Bar) (s : RunState) :
    (equity_phase bar s).positions = s.positions := rfl

theorem equity_phase_intervals (bar : Bar) (s : RunState) :
    (equity_phase bar s).intervals = s.intervals := rfl

theorem equity_phase_closes (bar : Bar) (s : RunState) :
    (equity_phase bar s).closes = s.closes := rfl

theorem equity_phase_of_some {bar : Bar} {s : RunState} {pos : Position}
    (h : s.currentPosition = some pos) :
    equity_phase bar s =
      { s with
          equityCurve := s.equityCurve ++
            [⟨bar.timestamp, s.capital + calculate_unrealized_pnl pos bar,
              s.capital, calculate_unrealized_pnl pos bar⟩] } := by
  unfold equity_phase
  rw [h]

/-- A position opened by `_open_position` enters at the bar's close, so
marking it to market against the same bar values it at zero. -/
theorem unrealized_pnl_at_open (sp : List Position) (sig : ℤ) (bar : Bar)
    (i : ℕ) (cap : ℚ) (sym tf : String) :
    calculate_unrealized_pnl (open_position sp sig bar i cap sym tf) bar = 0 := by
  unfold calculate_unrealized_pnl open_position
  by_cases h : sig = 1 <;> simp [h]

/-- Claim C3: whatever triggered the closure, the trade's `exit_price` is
the closing bar's close price, never the stop-loss or take-profit level. -/
theorem C3_exit_fill_is_bar_close (position : Position) (bar : Bar) (index : ℕ) :
    (close_position position bar index).exit_price = bar.close := rfl

/-- Claim C10: on every bar on which a position is opened (entry trigger
nonzero while flat, or flat after a same-bar close), the recorded
EquityPoint has `unrealized_pnl = 0` and `equity = capital`, because the
entry fill and the mark-to-market price are the same bar close. -/
theorem C10_equity_at_open_bar (sym tf : String) (sp : List Position)
    (en ex : ℕ → ℤ) (bar : Bar) (i : ℕ) (s : RunState)
    (hentry : en i ≠ 0)
    (hopen : s.currentPosition = none ∨
      ∃ p, s.currentPosition = some p ∧
        (ex i ≠ 0 ∨ check_stop_loss p bar = true)) :
    ∃ ep : EquityPoint,
      (stepBar sym tf sp en ex bar i s).equityCurve = s.equityCurve ++ [ep] ∧
      ep.unrealized_pnl = 0 ∧ ep.equity = ep.capital := by
  obtain ⟨s1, he, hnone, hcurve⟩ : ∃ s1 : RunState,
      exit_phase ex bar i s = s1 ∧ s1.currentPosition = none ∧
      s1.equityCurve = s.equityCurve := by
    rcases hopen with h | ⟨p, hp, hc⟩
    · exact ⟨s, exit_phase_of_none h, h, rfl⟩
    · exact ⟨_, exit_phase_of_close hp hc, rfl, rfl⟩
  unfold stepBar
  rw [he, entry_phase_of_open hnone hentry, equity_phase_of_some rfl]
  have hu : calculate_unrealized_pnl
      (open_position sp (en i) bar i s1.capital sym tf) bar = 0 :=
    unrealized_pnl_at_open sp (en i) bar i s1.capital sym tf
  refine ⟨⟨bar.timestamp,
    s1.capital + calculate_unrealized_pnl
      (open_position sp (en i) bar i s1.capital sym tf) bar,
    s1.capital,
    calculate_unrealized_pnl
      (open_position sp (en i) bar i s1.capital sym tf) bar⟩, ?_, ?_, ?_⟩
  · show s1.equityCurve ++ _ = s.equityCurve ++ _
    rw [hcurve]
  · exact hu
  · show s1.capital + _ = s1.capital
    rw [hu, add_zero]

/-- Claim C4: when the open position is closed in the exit phase of bar
`i` and `entry_trigger[i]` is nonzero, a new position is opened on the
same bar `i`, with its entry computed from the capital already updated by
the just-closed trade's pnl. -/
theorem C4_same_bar_reentry (sym tf : String) (sp : List Position)
    (en ex : ℕ → ℤ) (bar : Bar) (i : ℕ) (s : RunState) (pos : Position)
    (hpos : s.currentPosition = some pos)
    (hexit : ex i ≠ 0 ∨ check_stop_loss pos bar = true)
    (hentry : en i ≠ 0) :
    (stepBar sym tf sp en ex bar i s).currentPosition =
      some (open_position sp (en i) bar i
        (s.capital + (close_position pos bar i).pnl) sym tf) ∧
    (stepBar sym tf sp en ex bar i s).positions =
      s.positions ++ [open_position sp (en i) bar i
        (s.capital + (close_position pos bar i).pnl) sym tf] ∧
    (open_position sp (en i) bar i
      (s.capital + (close_position pos bar i).pnl) sym tf).entry_index = i ∧
    (stepBar sym tf sp en ex bar i s).trades =
      s.trades ++ [close_position pos bar i] := by
  unfold stepBar
  rw [exit_phase_of_close hpos hexit, entry_phase_of_open rfl hentry]
  exact ⟨rfl, rfl, rfl, rfl⟩

theorem C10_witness :
    entryAt1 1 ≠ 0 ∧
    ∃ ep : EquityPoint,
      (stepBar "BTC/USDT" "1h" [] entryAt1 exitNever (mkBar 3600 100 (some 1)) 1
        (initState 10000)).equityCurve = (initState 10000).equityCurve ++ [ep] ∧
      ep.unrealized_pnl = 0 ∧ ep.equity = ep.capital := by
  have h1 : entryAt1 1 ≠ 0 := by decide
  exact ⟨h1, C10_equity_at_open_bar "BTC/USDT" "1h" [] entryAt1 exitNever
    (mkBar 3600 100 (some 1)) 1 (initState 10000) h1 (Or.inl rfl)⟩

theorem C4_witness :
    stateWithOpenPos.currentPosition = some posC4 ∧
    (sigPlusAt2 2 ≠ 0 ∨ check_stop_loss posC4 (mkBar 7200 110 (some 1)) = true) ∧
    sigPlusAt2 2 ≠ 0 ∧
    (stepBar "BTC/USDT" "1h" [] sigPlusAt2 sigPlusAt2 (mkBar 7200 110 (some 1)) 2
        stateWithOpenPos).currentPosition =
      some (open_position [] (sigPlusAt2 2) (mkBar 7200 110 (some 1)) 2
        (stateWithOpenPos.capital +
          (close_position posC4 (mkBar 7200 110 (some 1)) 2).pnl) "BTC/USDT" "1h") := by
  have h1 : stateWithOpenPos.currentPosition = some posC4 := rfl
  have h2 : sigPlusAt2 2 ≠ 0 := by decide
  exact ⟨h1, Or.inl h2, h2,
    (C4_same_bar_reentry "BTC/USDT" "1h" [] sigPlusAt2 sigPlusAt2
      (mkBar 7200 110 (some 1)) 2 stateWithOpenPos posC4 h1 (Or.inl h2) h2).1⟩

theorem entry_phase_closes (sym tf : String) (sp : List Position)
    (en : ℕ → ℤ) (bar : Bar) (i : ℕ) (s : RunState) :
    (entry_phase sym tf sp en bar i s).closes = s.closes := by
  cases hc : s.currentPosition with
  | some p => rw [entry_phase_of_some hc]
  | none =>
      by_cases he : en i ≠ 0
      · rw [entry_phase_of_open hc he]
      · rw [entry_phase_of_noentry hc he]

theorem entry_phase_trades (sym tf : String) (sp : List Position)
    (en : ℕ → ℤ) (bar : Bar) (i : ℕ) (s : RunState) :
    (entry_phase sym tf sp en bar i s).trades = s.trades := by
  cases hc : s.currentPosition with
  | some p => rw [entry_phase_of_some hc]
  | none =>
      by_cases he : en i ≠ 0
      · rw [entry_phase_of_open hc he]
      · rw [entry_phase_of_noentry hc he]

theorem entry_phase_capital (sym tf : String) (sp : List Position)
    (en : ℕ → ℤ) (bar : Bar) (i : ℕ) (s : RunState) :
    (entry_phase sym tf sp en bar i s).capital = s.capital := by
  cases hc : s.currentPosition with
  | some p => rw [entry_phase_of_some hc]
  | none =>
      by_cases he : en i ≠ 0
      · rw [entry_phase_of_open hc he]
      · rw [entry_phase_of_noentry hc he]

theorem terminal_close_capital (bars : List Bar) (s : RunState) :
    (terminal_close bars s).capital = s.capital := by
  unfold terminal_close
  cases s.currentPosition <;> cases bars.getLast? <;> rfl

theorem terminal_close_closes (bars : List Bar) (s : RunState) :
    (terminal_close bars s).closes = s.closes ∨
      ∃ p : ℚ, (terminal_close bars s).closes =
        s.closes ++ [(s.capital, p, s.capital)] := by
  unfold terminal_close
  cases s.currentPosition with
  | none => cases bars.getLast? <;> exact Or.inl rfl
  | some pos =>
      cases hl : bars.getLast? with
      | none => exact Or.inl rfl
      | some lb =>
          exact Or.inr ⟨(close_position pos lb (bars.length - 1)).pnl, rfl⟩

theorem closes_ok_step (sym tf : String) (sp : List Position)
    (en ex : ℕ → ℤ) (bar : Bar) (i : ℕ) (s : RunState)
    (h : ∀ ev ∈ s.closes, ev.2.2 = ev.1 + ev.2.1) :
    ∀ ev ∈ (stepBar sym tf sp en ex bar i s).closes,
      ev.2.2 = ev.1 + ev.2.1 := by
  intro ev hev
  unfold stepBar at hev
  rw [equity_phase_closes, entry_phase_closes] at hev
  cases hc : s.currentPosition with
  | none =>
      rw [exit_phase_of_none hc] at hev
      exact h ev hev
  | some pos =>
      by_cases hcond : ex i ≠ 0 ∨ check_stop_loss pos bar = true
      · rw [exit_phase_of_close hc hcond] at hev
        rcases List.mem_append.mp hev with h1 | h1
        · exact h ev h1
        · have := List.eq_of_mem_singleton h1
          subst this
          rfl
      · rw [exit_phase_of_noclose hc hcond] at hev
        exact h ev hev

theorem closes_ok_foldl (sym tf : String) (sp : List Position)
    (en ex : ℕ → ℤ) (bars : List Bar) (l : List ℕ) (s : RunState)
    (h : ∀ ev ∈ s.closes, ev.2.2 = ev.1 + ev.2.1) :
    ∀ ev ∈ (l.foldl
      (fun s i => stepBar sym tf sp en ex (bars.getD i default) i s) s).closes,
      ev.2.2 = ev.1 + ev.2.1 := by
  induction l generalizing s with
  | nil => exact h
  | cons j t ih =>
      exact ih _ (closes_ok_step sym tf sp en ex (bars.getD j default) j s h)

/-- Claim C2 counterexample: in a concrete run whose position is
force-closed at the final bar with a pnl of 100, the capital after that
close equals the capital before it, not capital before plus pnl; so not
every close updates capital by the trade's pnl. -/
theorem C2_counterexample :
    ¬ ∀ ev ∈ (execute_backtest "BTC/USDT" "1h" [] 10000 barsRise entryAt1
        exitNever).closes, ev.2.2 = ev.1 + ev.2.1 := by
  have hc : (execute_backtest "BTC/USDT" "1h" [] 10000 barsRise entryAt1
      exitNever).closes = [(10000, 100, 10000)] := by
    with_unfolding_all rfl
  intro h
  have h1 := h (10000, 100, 10000) (by rw [hc]; exact List.mem_singleton_self _)
  norm_num at h1

/-- Claim C2 (amended): every close performed inside the bar loop updates
capital by exactly the trade's pnl; the terminal forced close of a
still-open position at the final bar appends the trade but leaves capital
unchanged. -/
theorem C2_amended_capital_after_close (sym tf : String) (sp : List Position)
    (ic : ℚ) (bars : List Bar) (en ex : ℕ → ℤ) :
    (∀ ev ∈ (execute_loop sym tf sp ic bars en ex).closes,
      ev.2.2 = ev.1 + ev.2.1) ∧
    (execute_backtest sym tf sp ic bars en ex).capital =
      (execute_loop sym tf sp ic bars en ex).capital ∧
    ((execute_backtest sym tf sp ic bars en ex).closes =
        (execute_loop sym tf sp ic bars en ex).closes ∨
      ∃ p : ℚ, (execute_backtest sym tf sp ic bars en ex).closes =
        (execute_loop sym tf sp ic bars en ex).closes ++
          [((execute_loop sym tf sp ic bars en ex).capital, p,
            (execute_loop sym tf sp ic bars en ex).capital)]) := by
  refine ⟨?_, ?_, ?_⟩
  · unfold execute_loop
    refine closes_ok_foldl sym tf sp en ex bars _ _ ?_
    intro ev hev
    simp [initState] at hev
  · exact terminal_close_capital bars _
  · exact terminal_close_closes bars _

/-- Claim C5 (code bug): in a concrete run that creates two positions
(entries at bars 1 and 3, an exit at bar 2), both positions receive
id 1 — `_open_position` computes `len(self.positions) + 1`, but the loop
appends only to `results['positions']` and never to `self.positions`, so
the per-run ids are not strictly increasing. -/
theorem C5_ids_not_increasing :
    (execute_backtest "BTC/USDT" "1h" [] 10000 barsFlat4 entryAt13
        sigPlusAt2).positions.map Position.id = [1, 1] ∧
    (execute_backtest "BTC/USDT" "1h" [] 10000 barsFlat4 entryAt13
        sigPlusAt2).positions.map Position.entry_index = [1, 3] := by
  constructor <;> with_unfolding_all rfl

theorem exit_phase_congr {ex1 ex2 : ℕ → ℤ} (bar : Bar) (i : ℕ) (s : RunState)
    (h : ex1 i = 0 ↔ ex2 i = 0) :
    exit_phase ex1 bar i s = exit_phase ex2 bar i s := by
  cases hc : s.currentPosition with
  | none => rw [exit_phase_of_none hc, exit_phase_of_none hc]
  | some pos =>
      have hiff : (ex1 i ≠ 0 ∨ check_stop_loss pos bar = true) ↔
          (ex2 i ≠ 0 ∨ check_stop_loss pos bar = true) :=
        or_congr_left (not_congr h)
      by_cases hcond : ex1 i ≠ 0 ∨ check_stop_loss pos bar = true
      · rw [exit_phase_of_close hc hcond, exit_phase_of_close hc (hiff.mp hcond)]
      · rw [exit_phase_of_noclose hc hcond,
          exit_phase_of_noclose hc (fun hx => hcond (hiff.mpr hx))]

theorem stepBar_congr (sym tf : String) (sp : List Position) (en : ℕ → ℤ)
    {ex1 ex2 : ℕ → ℤ} (bar : Bar) (i : ℕ) (s : RunState)
    (h : ex1 i = 0 ↔ ex2 i = 0) :
    stepBar sym tf sp en ex1 bar i s = stepBar sym tf sp en ex2 bar i s := by
  unfold stepBar
  rw [exit_phase_congr bar i s h]

theorem foldl_stepBar_congr (sym tf : String) (sp : List Position)
    (en : ℕ → ℤ) {ex1 ex2 : ℕ → ℤ} (bars : List Bar) (l : List ℕ)
    (s : RunState) (h : ∀ i, ex1 i = 0 ↔ ex2 i = 0) :
    l.foldl (fun s i => stepBar sym tf sp en ex1 (bars.getD i default) i s) s =
      l.foldl (fun s i => stepBar sym tf sp en ex2 (bars.getD i default) i s) s := by
  induction l generalizing s with
  | nil => rfl
  | cons j t ih =>
      simp only [List.foldl_cons]
      rw [stepBar_congr sym tf sp en (bars.getD j default) j s (h j)]
      exact ih _

/-- Claim C6: two runs over the same bars and entry triggers whose exit
triggers agree on which indices are nonzero (signs may differ) produce the
same result state — ledger, equity curve, positions — and hence the same
metrics: only `exit_trigger ≠ 0` is ever consulted. -/
theorem C6_exit_sign_irrelevant (sym tf : String) (sp : List Position)
    (ic : ℚ) (bars : List Bar) (en : ℕ → ℤ) (ex1 ex2 : ℕ → ℤ)
    (h : ∀ i, ex1 i = 0 ↔ ex2 i = 0) :
    execute_backtest sym tf sp ic bars en ex1 =
      execute_backtest sym tf sp ic bars en ex2 ∧
    calculate_performance_metrics ic
        (execute_backtest sym tf sp ic bars en ex1).trades
        (execute_backtest sym tf sp ic bars en ex1).equityCurve =
      calculate_performance_metrics ic
        (execute_backtest sym tf sp ic bars en ex2).trades
        (execute_backtest sym tf sp ic bars en ex2).equityCurve := by
  have hrun : execute_backtest sym tf sp ic bars en ex1 =
      execute_backtest sym tf sp ic bars en ex2 := by
    unfold execute_backtest execute_loop
    rw [foldl_stepBar_congr sym tf sp en bars _ _ h]
  exact ⟨hrun, by rw [hrun]⟩

theorem C6_witness :
    (∀ i, sigPlusAt2 i = 0 ↔ sigMinusAt2 i = 0) ∧
    execute_backtest "BTC/USDT" "1h" [] 10000 barsRise entryAt1 sigPlusAt2 =
      execute_backtest "BTC/USDT" "1h" [] 10000 barsRise entryAt1 sigMinusAt2 := by
  have h : ∀ i, sigPlusAt2 i = 0 ↔ sigMinusAt2 i = 0 := by
    intro i
    by_cases hi : i = 2 <;> simp [sigPlusAt2, sigMinusAt2, hi]
  exact ⟨h, (C6_exit_sign_irrelevant "BTC/USDT" "1h" [] 10000 barsRise
    entryAt1 sigPlusAt2 sigMinusAt2 h).1⟩

/-- Claim C7: with a non-empty ledger, `profit_factor` is
`gross_profit / gross_loss` whenever `gross_loss > 0` and the `+inf`
sentinel whenever `gross_loss = 0` and `gross_profit > 0`; with no trades
at all the metrics are empty. -/
theorem C7_profit_factor (ic : ℚ) (trades : List Trade)
    (ec : List EquityPoint) :
    (trades = [] → calculate_performance_metrics ic trades ec = none) ∧
    (trades ≠ [] → 0 < gross_loss_of trades →
      (calculate_performance_metrics ic trades ec).map
          PerformanceMetrics.profit_factor =
        some (FloatVal.val (gross_profit_of trades / gross_loss_of trades))) ∧
    (trades ≠ [] → gross_loss_of trades = 0 → 0 < gross_profit_of trades →
      (calculate_performance_metrics ic trades ec).map
          PerformanceMetrics.profit_factor = some FloatVal.inf) := by
  refine ⟨?_, ?_, ?_⟩
  · intro h
    subst h
    rfl
  · intro h hgl
    have hne : trades.isEmpty = false := by
      cases trades
      · exact absurd rfl h
      · rfl
    unfold calculate_performance_metrics
    rw [hne]
    simp only [Bool.false_eq_true, if_false, Option.map_some']
    rw [if_pos hgl]
  · intro h hgl hgp
    have hne : trades.isEmpty = false := by
      cases trades
      · exact absurd rfl h
      · rfl
    unfold calculate_performance_metrics
    rw [hne]
    simp only [Bool.false_eq_true, if_false, Option.map_some']
    rw [hgl]
    rw [if_neg (lt_irrefl 0)]

theorem C7_witness :
    (tradesMixed ≠ [] ∧ 0 < gross_loss_of tradesMixed ∧
      (calculate_performance_metrics 10000 tradesMixed []).map
          PerformanceMetrics.profit_factor =
        some (FloatVal.val (gross_profit_of tradesMixed / gross_loss_of tradesMixed))) ∧
    (tradesNoLoss ≠ [] ∧ gross_loss_of tradesNoLoss = 0 ∧
      0 < gross_profit_of tradesNoLoss ∧
      (calculate_performance_metrics 10000 tradesNoLoss []).map
          PerformanceMetrics.profit_factor = some FloatVal.inf) ∧
    calculate_performance_metrics 10000 ([] : List Trade) [] = none := by
  have h1 : tradesMixed ≠ [] := by simp [tradesMixed]
  have he : gross_loss_of tradesMixed = 5 := by with_unfolding_all rfl
  have h2 : 0 < gross_loss_of tradesMixed := by rw [he]; norm_num
  have h3 : tradesNoLoss ≠ [] := by simp [tradesNoLoss]
  have h4 : gross_loss_of tradesNoLoss = 0 := by with_unfolding_all rfl
  have he5 : gross_profit_of tradesNoLoss = 10 := by with_unfolding_all rfl
  have h5 : 0 < gross_profit_of tradesNoLoss := by rw [he5]; norm_num
  exact ⟨⟨h1, h2, (C7_profit_factor 10000 tradesMixed []).2.1 h1 h2⟩,
    ⟨h3, h4, h5, (C7_profit_factor 10000 tradesNoLoss []).2.2 h3 h4 h5⟩,
    (C7_profit_factor 10000 [] []).1 rfl⟩

theorem runningPeaksAux_eq (m : ℚ) (l : List ℚ) :
    runningPeaksAux m l =
      (List.range l.length).map (fun i => (l.take (i + 1)).foldl max m) := by
  induction l generalizing m with
  | nil => rfl
  | cons e rest ih =>
      show (max m e) :: runningPeaksAux (max m e) rest = _
      rw [List.length_cons, List.range_succ_eq_map, List.map_cons, List.map_map]
      congr 1
      rw [ih (max m e)]
      apply List.map_congr_left
      intro i _
      simp only [Function.comp_apply]
      rw [List.take_succ_cons, List.foldl_cons]

theorem runningPeaks_eq (es : List ℚ) (h : es ≠ []) :
    runningPeaks es = (List.range es.length).map (spec_running_peak es) := by
  cases es with
  | nil => exact absurd rfl h
  | cons e rest =>
      show e :: runningPeaksAux e rest = _
      rw [List.length_cons, List.range_succ_eq_map, List.map_cons, List.map_map]
      congr 1
      · show e = ((e :: rest).take 1).foldl max ((e :: rest).headD 0)
        show e = max e e
        rw [max_self]
      · rw [runningPeaksAux_eq]
        apply List.map_congr_left
        intro i _
        simp only [Function.comp_apply]
        show (rest.take (i + 1)).foldl max e =
          ((e :: rest).take (i + 1 + 1)).foldl max ((e :: rest).headD 0)
        rw [show ((e :: rest).headD 0) = e from rfl, List.take_succ_cons,
          List.foldl_cons, max_self]

/-- Claim C8: for every non-empty equity series the computed
`max_drawdown` equals the spec formula
`|min over time of (equity − running_peak)/running_peak × 100|` with
`running_peak` the running maximum, and is always nonnegative. -/
theorem C8_max_drawdown_spec (es : List ℚ) (h : es ≠ []) :
    calculate_max_drawdown es = spec_max_drawdown es ∧
    0 ≤ calculate_max_drawdown es := by
  constructor
  · cases es with
    | nil => exact absurd rfl h
    | cons e rest =>
        have hne : (e :: rest) ≠ [] := by simp
        have hdd : (((e :: rest).zip (runningPeaks (e :: rest))).map
            (fun p => (p.1 - p.2) / p.2 * 100)) =
            (List.range (e :: rest).length).map (spec_drawdown (e :: rest)) := by
          apply List.ext_getElem
          · rw [List.length_map, List.length_zip, runningPeaks_eq _ hne,
              List.length_map, List.length_range, min_self, List.length_map,
              List.length_range]
          · intro i h1 h2
            simp only [List.getElem_map, List.getElem_zip, List.getElem_range]
            have h3 : i < (e :: rest).length := by
              simpa using h2
            have hlen2 : i < (runningPeaks (e :: rest)).length := by
              rw [runningPeaks_eq _ hne, List.length_map, List.length_range]
              simpa using h2
            rw [← List.getD_eq_getElem (runningPeaks (e :: rest)) 0 hlen2,
              ← List.getD_eq_getElem (e :: rest) 0 h3]
            have hp : (runningPeaks (e :: rest)).getD i 0 =
                spec_running_peak (e :: rest) i := by
              have hl2 : i < ((List.range (e :: rest).length).map
                  (spec_running_peak (e :: rest))).length := by
                rw [List.length_map, List.length_range]
                simpa using h2
              rw [runningPeaks_eq _ hne, List.getD_eq_getElem _ 0 hl2]
              simp only [List.getElem_map, List.getElem_range]
            rw [hp]
            rfl
        show calculate_max_drawdown (e :: rest) = spec_max_drawdown (e :: rest)
        unfold calculate_max_drawdown spec_max_drawdown
        rw [if_neg (by simp)]
        rw [hdd]
        show |listMin ((List.range (e :: rest).length).map
          (spec_drawdown (e :: rest)))| = _
        congr 1
        rw [List.length_cons, List.range_succ_eq_map, List.map_cons]
        show List.foldl min (spec_drawdown (e :: rest) 0) _ = _
        rw [List.foldl_cons, min_self]
  · unfold calculate_max_drawdown
    split
    · exact le_refl 0
    · exact abs_nonneg _

theorem C8_witness :
    ([100, 110, 99] : List ℚ) ≠ [] ∧
    calculate_max_drawdown [100, 110, 99] = spec_max_drawdown [100, 110, 99] ∧
    0 ≤ calculate_max_drawdown [100, 110, 99] := by
  have h : ([100, 110, 99] : List ℚ) ≠ [] := by simp
  exact ⟨h, (C8_max_drawdown_spec [100, 110, 99] h).1,
    (C8_max_drawdown_spec [100, 110, 99] h).2⟩

theorem foldl_append_tagged (runs : List RunResult)
    (acc : List (String × String × Trade)) :
    runs.foldl (fun acc r => acc ++
        r.trades.map (fun t => (r.symbol, r.timeframe, t))) acc =
      acc ++ (runs.map (fun r =>
        r.trades.map (fun t => (r.symbol, r.timeframe, t)))).flatten := by
  induction runs generalizing acc with
  | nil => simp
  | cons r rest ih =>
      simp only [List.foldl_cons, List.map_cons, List.flatten_cons]
      rw [ih, List.append_assoc]

theorem foldl_add_eq (g : RunResult → ℚ) (runs : List RunResult) (acc : ℚ) :
    runs.foldl (fun a r => a + g r) acc = acc + (runs.map g).sum := by
  induction runs generalizing acc with
  | nil => simp
  | cons r rest ih =>
      simp only [List.foldl_cons, List.map_cons, List.sum_cons]
      rw [ih, add_assoc]

theorem tagged_proj (runs : List RunResult) :
    ((runs.map (fun r =>
        r.trades.map (fun t => (r.symbol, r.timeframe, t)))).flatten).map
      (fun t => t.2.2) = (runs.map RunResult.trades).flatten := by
  induction runs with
  | nil => rfl
  | cons r rest ih =>
      rw [List.map_cons, List.flatten_cons, List.map_cons, List.flatten_cons,
        List.map_append, ih, List.map_map]
      congr 1
      show r.trades.map (fun t => t) = r.trades
      simp

/-- Claim C9: when the pooled trade set is non-empty, the portfolio
metrics are computed over the pooled trades — `total_pnl` is the sum of
pnl over all trades of all runs, `win_rate` is the pooled winner count
over the pooled trade count × 100 (trade-count-weighted), and initial and
final capital are simple sums across runs. -/
theorem C9_portfolio_pooled (runs : List RunResult)
    (h : (runs.map RunResult.trades).flatten ≠ []) :
    ∃ pm : PortfolioMetrics,
      calculate_portfolio_performance runs = some pm ∧
      pm.total_trades = ((runs.map RunResult.trades).flatten).length ∧
      pm.total_pnl = (((runs.map RunResult.trades).flatten).map Trade.pnl).sum ∧
      pm.win_rate = ((((runs.map RunResult.trades).flatten).filter
          (fun t => decide (0 < t.pnl))).length : ℚ) /
          (((runs.map RunResult.trades).flatten).length : ℚ) * 100 ∧
      pm.initial_capital = (runs.map perfInitialCapital).sum ∧
      pm.final_capital = (runs.map perfFinalCapital).sum := by
  have hT := foldl_append_tagged runs []
  rw [List.nil_append] at hT
  have hproj := tagged_proj runs
  have hlen : ((runs.map (fun r =>
      r.trades.map (fun t => (r.symbol, r.timeframe, t)))).flatten).length =
      ((runs.map RunResult.trades).flatten).length := by
    rw [← hproj, List.length_map]
  have hsum : (((runs.map (fun r =>
      r.trades.map (fun t => (r.symbol, r.timeframe, t)))).flatten).map
        (fun t => t.2.2.pnl)).sum =
      (((runs.map RunResult.trades).flatten).map Trade.pnl).sum := by
    rw [← hproj, List.map_map]
    rfl
  have hfil : (((runs.map (fun r =>
      r.trades.map (fun t => (r.symbol, r.timeframe, t)))).flatten).filter
        (fun t => decide (0 < t.2.2.pnl))).length =
      (((runs.map RunResult.trades).flatten).filter
        (fun t => decide (0 < t.pnl))).length := by
    rw [← hproj, List.filter_map, List.length_map]
    rfl
  have hne2 : ((runs.map (fun r =>
      r.trades.map (fun t => (r.symbol, r.timeframe, t)))).flatten) ≠ [] := by
    intro h0
    apply h
    rw [← hproj, h0]
    rfl
  have hne : ((runs.map (fun r =>
      r.trades.map (fun t => (r.symbol, r.timeframe, t)))).flatten).isEmpty =
      false := by
    cases htag : ((runs.map (fun r =>
        r.trades.map (fun t => (r.symbol, r.timeframe, t)))).flatten) with
    | nil => exact absurd htag hne2
    | cons a t => rfl
  have hpos : 0 < ((runs.map (fun r =>
      r.trades.map (fun t => (r.symbol, r.timeframe, t)))).flatten).length := by
    rw [hlen]
    exact List.length_pos.mpr h
  unfold calculate_portfolio_performance
  simp only [hT, hne, Bool.false_eq_true, if_false]
  refine ⟨_, rfl, hlen, hsum, ?_, ?_, ?_⟩
  · show (if _ then _ else _) = _
    rw [if_pos hpos, hfil, hlen]
  · show runs.foldl (fun a r => a + perfInitialCapital r) 0 = _
    rw [foldl_add_eq, zero_add]
  · show runs.foldl (fun a r => a + perfFinalCapital r) 0 = _
    rw [foldl_add_eq, zero_add]

theorem C9_witness :
    (runsC9.map RunResult.trades).flatten ≠ [] ∧
    ∃ pm : PortfolioMetrics,
      calculate_portfolio_performance runsC9 = some pm ∧
      pm.total_trades = ((runsC9.map RunResult.trades).flatten).length ∧
      pm.total_pnl = (((runsC9.map RunResult.trades).flatten).map Trade.pnl).sum ∧
      pm.win_rate = ((((runsC9.map RunResult.trades).flatten).filter
          (fun t => decide (0 < t.pnl))).length : ℚ) /
          (((runsC9.map RunResult.trades).flatten).length : ℚ) * 100 ∧
      pm.initial_capital = (runsC9.map perfInitialCapital).sum ∧
      pm.final_capital = (runsC9.map perfFinalCapital).sum := by
  have h : (runsC9.map RunResult.trades).flatten ≠ [] := by
    simp [runsC9, tradesMixed, tradesNoLoss]
  exact ⟨h, C9_portfolio_pooled runsC9 h⟩

theorem exit_phase_inv {ex : ℕ → ℤ} {bar : Bar} {i j : ℕ} {s : RunState}
    (hinv : LoopInv s i) (hij : i < j) : LoopInv (exit_phase ex bar j s) j := by
  obtain ⟨h1, h2, h3, h4⟩ := hinv
  cases hc : s.currentPosition with
  | none =>
      rw [exit_phase_of_none hc]
      refine ⟨?_, h2, ?_, h4⟩
      · intro iv hiv
        exact ⟨(h1 iv hiv).1, le_trans (h1 iv hiv).2 (le_of_lt hij)⟩
      · intro p hp
        rw [hc] at hp
        exact Option.noConfusion hp
  | some pos =>
      obtain ⟨hpi, hpall⟩ := h3 pos hc
      have hej : pos.entry_index ≤ j := le_trans hpi (le_of_lt hij)
      by_cases hcond : ex j ≠ 0 ∨ check_stop_loss pos bar = true
      · rw [exit_phase_of_close hc hcond]
        refine ⟨?_, ?_, ?_, ?_⟩
        · intro iv hiv
          rcases List.mem_append.mp hiv with hin | hin
          · exact ⟨(h1 iv hin).1, le_trans (h1 iv hin).2 (le_of_lt hij)⟩
          · have heq := List.eq_of_mem_singleton hin
            subst heq
            exact ⟨hej, le_refl j⟩
        · rw [List.pairwise_append]
          refine ⟨h2, List.pairwise_singleton _ _, ?_⟩
          intro a ha b hb
          have heq := List.eq_of_mem_singleton hb
          subst heq
          exact hpall a ha
        · intro p hp
          exact Option.noConfusion hp
        · show s.positions.map Position.entry_index =
            (s.intervals ++ [(pos.entry_index, j)]).map Prod.fst ++ []
          rw [List.map_append, List.map_singleton, List.append_nil]
          rw [hc] at h4
          exact h4
      · rw [exit_phase_of_noclose hc hcond]
        refine ⟨?_, h2, ?_, h4⟩
        · intro iv hiv
          exact ⟨(h1 iv hiv).1, le_trans (h1 iv hiv).2 (le_of_lt hij)⟩
        · intro p hp
          rw [hc] at hp
          injection hp with hpe
          subst hpe
          exact ⟨hej, hpall⟩

theorem entry_phase_inv {sym tf : String} {sp : List Position} {en : ℕ → ℤ}
    {bar : Bar} {j : ℕ} {s : RunState} (hinv : LoopInv s j) :
    LoopInv (entry_phase sym tf sp en bar j s) j := by
  obtain ⟨h1, h2, h3, h4⟩ := hinv
  cases hc : s.currentPosition with
  | some p =>
      rw [entry_phase_of_some hc]
      exact ⟨h1, h2, h3, h4⟩
  | none =>
      by_cases he : en j ≠ 0
      · rw [entry_phase_of_open hc he]
        refine ⟨h1, h2, ?_, ?_⟩
        · intro p hp
          injection hp with hpe
          subst hpe
          refine ⟨le_refl j, ?_⟩
          intro iv hiv
          exact (h1 iv hiv).2
        · show (s.positions ++
              [open_position sp (en j) bar j s.capital sym tf]).map
                Position.entry_index =
            s.intervals.map Prod.fst ++
              [(open_position sp (en j) bar j s.capital sym tf).entry_index]
          rw [List.map_append, List.map_singleton]
          rw [hc] at h4
          have h4' : s.positions.map Position.entry_index =
              s.intervals.map Prod.fst := h4.trans (List.append_nil _)
          rw [h4']
      · rw [entry_phase_of_noentry hc he]
        exact ⟨h1, h2, h3, h4⟩

theorem equity_phase_inv {bar : Bar} {j : ℕ} {s : RunState}
    (hinv : LoopInv s j) : LoopInv (equity_phase bar s) j := by
  unfold LoopInv at hinv ⊢
  rw [equity_phase_intervals, equity_phase_positions,
    equity_phase_currentPosition]
  exact hinv

theorem stepBar_inv {sym tf : String} {sp : List Position} {en ex : ℕ → ℤ}
    {bar : Bar} {i j : ℕ} {s : RunState}
    (hinv : LoopInv s i) (hij : i < j) :
    LoopInv (stepBar sym tf sp en ex bar j s) j := by
  unfold stepBar
  exact equity_phase_inv (entry_phase_inv (exit_phase_inv hinv hij))

theorem initState_inv (ic : ℚ) : LoopInv (initState ic) 0 :=
  ⟨fun iv hiv => absurd hiv (List.not_mem_nil iv), List.Pairwise.nil,
    fun _ hp => Option.noConfusion hp, rfl⟩

theorem loop_inv (sym tf : String) (sp : List Position) (en ex : ℕ → ℤ)
    (bars : List Bar) (ic : ℚ) (m : ℕ) :
    LoopInv ((List.range' 1 m).foldl
      (fun s i => stepBar sym tf sp en ex (bars.getD i default) i s)
      (initState ic)) m := by
  induction m with
  | zero => exact initState_inv ic
  | succ k ih =>
      rw [List.range'_concat, List.foldl_append]
      have hk : (1 : ℕ) + 1 * k = k + 1 := by omega
      rw [hk]
      exact stepBar_inv ih (by omega)

theorem terminal_close_inv {bars : List Bar} {s : RunState}
    (hinv : LoopInv s (bars.length - 1)) :
    LoopInv (terminal_close bars s) (bars.length - 1) := by
  obtain ⟨h1, h2, h3, h4⟩ := hinv
  unfold terminal_close
  cases hc : s.currentPosition with
  | none =>
      cases bars.getLast? <;> exact ⟨h1, h2, h3, h4⟩
  | some pos =>
      obtain ⟨hpi, hpall⟩ := h3 pos hc
      cases hl : bars.getLast? with
      | none => exact ⟨h1, h2, h3, h4⟩
      | some lb =>
          refine ⟨?_, ?_, ?_, ?_⟩
          · intro iv hiv
            rcases List.mem_append.mp hiv with hin | hin
            · exact h1 iv hin
            · have heq := List.eq_of_mem_singleton hin
              subst heq
              exact ⟨hpi, le_refl _⟩
          · rw [List.pairwise_append]
            refine ⟨h2, List.pairwise_singleton _ _, ?_⟩
            intro a ha b hb
            have heq := List.eq_of_mem_singleton hb
            subst heq
            exact hpall a ha
          · intro p hp
            exact Option.noConfusion hp
          · show s.positions.map Position.entry_index =
              (s.intervals ++ [(pos.entry_index, bars.length - 1)]).map
                Prod.fst ++ []
            rw [List.map_append, List.map_singleton, List.append_nil]
            rw [hc] at h4
            exact h4

theorem terminal_close_currentPosition {bars : List Bar} {s : RunState}
    {lb : Bar} (hl : bars.getLast? = some lb) :
    (terminal_close bars s).currentPosition = none := by
  unfold terminal_close
  rw [hl]
  cases hc : s.currentPosition with
  | none => exact hc
  | some pos => rfl

/-- Claim C1: in every run, the recorded `[entry_index, exit_index)`
intervals are well-formed, ordered so that each closes no later than the
next opens (a same-bar close/reopen meets exactly), hence pairwise
disjoint; and they account for every recorded position. -/
theorem C1_intervals_disjoint (sym tf : String) (sp : List Position)
    (ic : ℚ) (bars : List Bar) (en ex : ℕ → ℤ) :
    (∀ iv ∈ (execute_backtest sym tf sp ic bars en ex).intervals,
      iv.1 ≤ iv.2) ∧
    List.Pairwise (fun a b : ℕ × ℕ => a.2 ≤ b.1)
      (execute_backtest sym tf sp ic bars en ex).intervals ∧
    List.Pairwise (fun a b : ℕ × ℕ =>
        ∀ k : ℕ, ¬(a.1 ≤ k ∧ k < a.2 ∧ b.1 ≤ k ∧ k < b.2))
      (execute_backtest sym tf sp ic bars en ex).intervals ∧
    (execute_backtest sym tf sp ic bars en ex).positions.map
        Position.entry_index =
      (execute_backtest sym tf sp ic bars en ex).intervals.map Prod.fst := by
  have hfin : LoopInv (execute_backtest sym tf sp ic bars en ex)
      (bars.length - 1) := by
    unfold execute_backtest execute_loop
    exact terminal_close_inv (loop_inv sym tf sp en ex bars ic (bars.length - 1))
  obtain ⟨h1, h2, h3, h4⟩ := hfin
  refine ⟨fun iv hiv => (h1 iv hiv).1, h2,
    List.Pairwise.imp (fun hab k hk => by omega) h2, ?_⟩
  cases hb : bars.getLast? with
  | none =>
      have hbe : bars = [] := List.getLast?_eq_none_iff.mp hb
      subst hbe
      exact h4.trans (List.append_nil _)
  | some lb =>
      have hnone : (execute_backtest sym tf sp ic bars en ex).currentPosition
          = none := by
        unfold execute_backtest
        exact terminal_close_currentPosition hb
      rw [hnone] at h4
      exact h4.trans (List.append_nil _)
